import Mathlib

/-!
Verification development for the QC Metrics Dashboard analytical core
(src/backend/database.py, with the route guards of src/backend/app.py).

Modelling conventions (shallow embedding):
* A loaded parquet table is a list of declared columns (name, declared
  dtype string, as reported by information_schema) together with rows of
  cells, in table order.
* Numeric (DOUBLE) cells carry a PyFloat: an exact rational, NaN, or one
  of the infinities, with SQL NULL for missing data.  DuckDB orders NaN
  greater than every other double (so it reaches MIN/MAX/PERCENTILE
  groups), and the per-statistic _safe_float application of the source is
  modelled, turning non-finite aggregates into the missing marker.
  Non-float numerical dtypes (e.g. temporal types, which the classifier
  also routes to the numerical group) are not distinctly modelled.
* Fallible SQL execution is Except: a query whose WHERE clause references
  an identifier absent from the target table fails at binding time, which
  is the failure the source catches around the new_samples queries.
* Python str-to-float parsing inside float(...) is not modelled (strings
  map to conversion failure); no claim exercises it.
-/

namespace QCTracker

/-- A double value as DuckDB and Python see it: finite, NaN, or an
infinity. -/
inductive PyFloat where
  | fin (q : ℚ) : PyFloat
  | nan : PyFloat
  | inf : PyFloat
  | ninf : PyFloat
deriving DecidableEq

/-- A single table cell: SQL NULL, a VARCHAR value, a DOUBLE value
(possibly non-finite), or a BOOLEAN value. -/
inductive Cell where
  | null : Cell
  | str (s : String) : Cell
  | num (f : PyFloat) : Cell
  | boolean (b : Bool) : Cell
deriving DecidableEq

/-- Rank of a double in the DuckDB sort order: -infinity below all finite
values, +infinity above them, and NaN greater than everything. -/
def pfRank : PyFloat → ℕ
  | PyFloat.ninf => 0
  | PyFloat.fin _ => 1
  | PyFloat.inf => 2
  | PyFloat.nan => 3

/-- DuckDB comparison on doubles (total: NaN sorts greatest). -/
def pfLeB (a b : PyFloat) : Bool :=
  match a, b with
  | PyFloat.fin x, PyFloat.fin y => decide (x ≤ y)
  | _, _ => decide (pfRank a ≤ pfRank b)

/-- IEEE negation. -/
def pfNeg : PyFloat → PyFloat
  | PyFloat.fin x => PyFloat.fin (-x)
  | PyFloat.nan => PyFloat.nan
  | PyFloat.inf => PyFloat.ninf
  | PyFloat.ninf => PyFloat.inf

/-- IEEE addition (NaN propagates; inf + -inf is NaN). -/
def pfAdd : PyFloat → PyFloat → PyFloat
  | PyFloat.nan, _ => PyFloat.nan
  | _, PyFloat.nan => PyFloat.nan
  | PyFloat.inf, PyFloat.ninf => PyFloat.nan
  | PyFloat.ninf, PyFloat.inf => PyFloat.nan
  | PyFloat.inf, _ => PyFloat.inf
  | _, PyFloat.inf => PyFloat.inf
  | PyFloat.ninf, _ => PyFloat.ninf
  | _, PyFloat.ninf => PyFloat.ninf
  | PyFloat.fin x, PyFloat.fin y => PyFloat.fin (x + y)

/-- IEEE subtraction (NaN propagates; inf - inf is NaN). -/
def pfSub : PyFloat → PyFloat → PyFloat
  | PyFloat.nan, _ => PyFloat.nan
  | _, PyFloat.nan => PyFloat.nan
  | PyFloat.inf, PyFloat.inf => PyFloat.nan
  | PyFloat.ninf, PyFloat.ninf => PyFloat.nan
  | PyFloat.inf, _ => PyFloat.inf
  | _, PyFloat.inf => PyFloat.ninf
  | PyFloat.ninf, _ => PyFloat.ninf
  | _, PyFloat.ninf => PyFloat.inf
  | PyFloat.fin x, PyFloat.fin y => PyFloat.fin (x - y)

/-- IEEE multiplication of a finite scalar (the interpolation fraction)
with a double: NaN propagates, zero times an infinity is NaN. -/
def pfMulRat (q : ℚ) : PyFloat → PyFloat
  | PyFloat.fin x => PyFloat.fin (q * x)
  | PyFloat.nan => PyFloat.nan
  | PyFloat.inf =>
      if 0 < q then PyFloat.inf else if q < 0 then PyFloat.ninf else PyFloat.nan
  | PyFloat.ninf =>
      if 0 < q then PyFloat.ninf else if q < 0 then PyFloat.inf else PyFloat.nan

/-- A Python scalar as seen by the sanitizer: a float, a string, a bool,
or None. -/
inductive PyVal where
  | fl (f : PyFloat) : PyVal
  | s (v : String) : PyVal
  | b (v : Bool) : PyVal
  | noneV : PyVal
deriving DecidableEq

/-- Python float(v): floats pass through, bools become 0/1, None raises
TypeError (failure); numeric-string parsing is not modelled, so strings
map to failure here (no claim depends on it). -/
def pyFloatOfVal : PyVal → Option PyFloat
  | PyVal.fl f => some f
  | PyVal.b v => some (PyFloat.fin (if v then 1 else 0))
  | PyVal.s _ => Option.none
  | PyVal.noneV => Option.none

/-- QCDatabase._safe_float: convert with float(...), then map NaN and the
infinities to None (the missing marker); conversion failure is also None. -/
def safe_float (v : PyVal) : Option ℚ :=
  match pyFloatOfVal v with
  | Option.none => Option.none
  | some PyFloat.nan => Option.none
  | some PyFloat.inf => Option.none
  | some PyFloat.ninf => Option.none
  | some (PyFloat.fin q) => some q

/-- A sanitized new-samples point: optional identifier label, sanitized value. -/
structure NewPoint where
  name : Option String
  value : Option ℚ
deriving DecidableEq

/-- A raw (pre-sanitization) name/value record, as built inside get_stats. -/
structure PointRaw where
  name : Option String
  value : PyVal
deriving DecidableEq

/-- Argument domain of QCDatabase._safe_float_obj: a name/value dict or a
plain scalar (the fallback branch). -/
inductive PyObj where
  | dict (p : PointRaw) : PyObj
  | plain (v : PyVal) : PyObj
deriving DecidableEq

/-- QCDatabase._safe_float_obj: sanitize the value field of a point record,
keeping the name field when present; plain scalars get a value-only record. -/
def safe_float_obj : PyObj → NewPoint
  | PyObj.dict p => { name := p.name, value := safe_float p.value }
  | PyObj.plain v => { name := Option.none, value := safe_float v }

/-- A loaded table: declared (column name, dtype) pairs plus rows of cells. -/
structure Table where
  cols : List (String × String)
  rows : List (List Cell)
deriving DecidableEq

def Table.names (t : Table) : List String := t.cols.map Prod.fst

def Table.hasCol (t : Table) (c : String) : Bool := t.names.contains c

def Table.colIdx (t : Table) (c : String) : ℕ := t.names.indexOf c

/-- The value of column c in row r (meaningful when hasCol c). -/
def Table.getCell (t : Table) (r : List Cell) (c : String) : Cell :=
  if t.hasCol c then r.getD (t.colIdx c) Cell.null else Cell.null

def Table.dtypeOf (t : Table) (c : String) : String :=
  (t.cols.getD (t.colIdx c) ("", "")).2

/-- ASCII case folding of one character, as a code point (Python
str.lower on the ASCII range; the identifiers the code folds are ASCII). -/
def charLowerNat (c : Char) : ℕ :=
  if 65 ≤ c.toNat && c.toNat ≤ 90 then c.toNat + 32 else c.toNat

/-- The case-folded code points of a string. -/
def lowerKey (s : String) : List ℕ := s.data.map charLowerNat

/-- Python s.lower() == target, for a lowercase ASCII target. -/
def lowerIs (s target : String) : Bool := lowerKey s == lowerKey target

/-- Python s.lower() in targets, for lowercase ASCII targets. -/
def lowerIn (s : String) (targets : List String) : Bool :=
  targets.any (fun t => lowerIs s t)

/-- Lexicographic comparison of character lists by code point. -/
def charsLe : List Char → List Char → Bool
  | [], _ => true
  | _ :: _, [] => false
  | a :: as, b :: bs =>
      a.toNat < b.toNat || (a.toNat == b.toNat && charsLe as bs)

/-- String ordering used by ORDER BY (lexicographic by code point). -/
def strLeB (a b : String) : Bool := charsLe a.data b.data

/-- pat matches at the head of s. -/
def subAt : List Char → List Char → Bool
  | _, [] => true
  | [], _ :: _ => false
  | a :: as, b :: bs => a == b && subAt as bs

/-- pat occurs somewhere inside s. -/
def hasSub : List Char → List Char → Bool
  | [], pat => subAt [] pat
  | s@(_ :: rest), pat => subAt s pat || hasSub rest pat

/-- Substring test, modelling the Python in operator on dtype names. -/
def containsSub (s pat : String) : Bool := hasSub s.data pat.data

/-- Dtypes whose cells are text. -/
def isTextualDtype (d : String) : Bool :=
  d == "VARCHAR" || containsSub d "CHAR" || containsSub d "TEXT"

/-- load_parquet column classification: VARCHAR, BOOLEAN, or any dtype
containing CHAR or TEXT is categorical, all other dtypes are numerical. -/
def isCategoricalDtype (d : String) : Bool :=
  d == "VARCHAR" || d == "BOOLEAN" || containsSub d "CHAR" || containsSub d "TEXT"

/-- Typing discipline for stored cells: text columns hold strings, BOOLEAN
columns hold booleans, numerical columns hold numbers; NULL fits anywhere. -/
def cellOkFor (d : String) (c : Cell) : Bool :=
  match c with
  | Cell.null => true
  | Cell.str _ => isTextualDtype d
  | Cell.boolean _ => d == "BOOLEAN"
  | Cell.num _ => !(isCategoricalDtype d)

/-- One row is rectangular and typed against the declared columns. -/
def rowOkFor (cols : List (String × String)) (r : List Cell) : Bool :=
  r.length == cols.length &&
  (List.range cols.length).all (fun i =>
    cellOkFor (cols.getD i ("", "")).2 (r.getD i Cell.null))

/-- Well-formed table: distinct column names, rectangular rows, cells typed
by their column dtype (what DuckDB guarantees for a loaded table). -/
def Table.wf (t : Table) : Bool :=
  (t.names.dedup == t.names) && t.rows.all (rowOkFor t.cols)

/-- Rendering of a rational, standing in for the Python repr of a float;
only injectivity on the numeric domain matters to the claims. -/
def ratStr (q : ℚ) : String :=
  if q.den == 1 then toString q.num else toString q.num ++ "/" ++ toString q.den

/-- Rendering of a double, standing in for the Python repr. -/
def pfStr : PyFloat → String
  | PyFloat.fin q => ratStr q
  | PyFloat.nan => "nan"
  | PyFloat.inf => "inf"
  | PyFloat.ninf => "-inf"

/-- Python str(...) of a cell value. -/
def cellStr : Cell → String
  | Cell.null => "None"
  | Cell.str s => s
  | Cell.num f => pfStr f
  | Cell.boolean b => if b then "True" else "False"

def cellToPyVal : Cell → PyVal
  | Cell.null => PyVal.noneV
  | Cell.str s => PyVal.s s
  | Cell.num f => PyVal.fl f
  | Cell.boolean b => PyVal.b b

/-- QCDatabase._build_where: the constraints actually emitted — one per
filter entry whose value is truthy (non-empty) and not the sentinel All. -/
def activeFilters (fs : List (String × String)) : List (String × String) :=
  fs.filter (fun p => !(p.2 == "") && !(p.2 == "All"))

/-- SQL equality of a cell against a string parameter: NULL compares to
nothing; VARCHAR compares by string equality; BOOLEAN via the usual cast
of the literal; parameter casts against numeric columns are outside the
modelled filter domain (filters target categorical columns). -/
def cellMatches (c : Cell) (v : String) : Bool :=
  match c with
  | Cell.null => false
  | Cell.str s => s == v
  | Cell.boolean b => (v == "true" && b) || (v == "false" && !b)
  | Cell.num _ => false

/-- The WHERE clause binds: every constrained column exists in the table. -/
def whereOk (t : Table) (fs : List (String × String)) : Bool :=
  (activeFilters fs).all (fun p => t.hasCol p.1)

/-- Row satisfies the conjunction of emitted equality constraints. -/
def rowMatchesB (t : Table) (fs : List (String × String)) (r : List Cell) : Bool :=
  (activeFilters fs).all (fun p => cellMatches (t.getCell r p.1) p.2)

inductive SqlError where
  | binder : SqlError
deriving DecidableEq

/-- SELECT * FROM t plus the WHERE clause built by _build_where: fails at
binding when a constrained column is absent, otherwise returns the rows
satisfying every constraint, in table order. -/
def selectWhere (t : Table) (fs : List (String × String)) :
    Except SqlError (List (List Cell)) :=
  if whereOk t fs then Except.ok (t.rows.filter (rowMatchesB t fs))
  else Except.error SqlError.binder

/-- The per-cell step of QCDatabase._row_to_dict: non-finite floats become
None, everything else passes through. -/
def sanitizeCellOut (c : Cell) : Cell :=
  match c with
  | Cell.num PyFloat.nan => Cell.null
  | Cell.num PyFloat.inf => Cell.null
  | Cell.num PyFloat.ninf => Cell.null
  | c => c

/-- QCDatabase._row_to_dict: pair column names with (sanitized) row values. -/
def rowToDict (t : Table) (r : List Cell) : List (String × Cell) :=
  t.names.zip (r.map sanitizeCellOut)

structure ColumnsInfo where
  categorical : List String
  numerical : List String
deriving DecidableEq

structure QueryResult where
  data : List (List (String × Cell))
  new_data : List (List (String × Cell))
deriving DecidableEq

structure StatRecord where
  min : Option ℚ
  q1 : Option ℚ
  median : Option ℚ
  q3 : Option ℚ
  max : Option ℚ
  points : List (Option ℚ)
  new_points : List NewPoint
deriving DecidableEq

/-- The in-memory database state (fields of QCDatabase.__init__; the two
table slots stand for the qc_data and new_samples tables of the DuckDB
connection, meaningful when the corresponding loaded flag is set). -/
structure QCDatabase where
  loaded : Bool
  new_samples_loaded : Bool
  qc_data : Table
  new_samples : Table
  columns : ColumnsInfo
  filter_options : List (String × List String)
  total_rows : ℕ
  new_samples_rows : ℕ
deriving DecidableEq

def emptyTable : Table := { cols := [], rows := [] }

/-- QCDatabase.__init__. -/
def QCDatabase.init : QCDatabase :=
  { loaded := false
    new_samples_loaded := false
    qc_data := emptyTable
    new_samples := emptyTable
    columns := { categorical := [], numerical := [] }
    filter_options := []
    total_rows := 0
    new_samples_rows := 0 }

/-- Default machines that always appear in the Machine dropdown. -/
def DEFAULT_MACHINES : List String := ["NovaSeq", "MiSeq", "NextSeq", "Revio"]

/-- The sample-identifier alias set used by load_parquet and
_detect_sample_name_col. -/
def sampleAliases : List String := ["sample_name", "sample", "samplename", "sample name"]

/-- SELECT DISTINCT col FROM qc_data ORDER BY col, keeping non-NULL values
stringified: the distinct observed values, sorted ascending. -/
def distinctSorted (t : Table) (c : String) : List String :=
  List.insertionSort (fun a b => strLeB a b = true)
    ((t.rows.filterMap (fun r =>
      match t.getCell r c with
      | Cell.null => Option.none
      | cell => some (cellStr cell))).dedup)

/-- The Machine-column merge loop of load_parquet: start from the defaults
and append each observed value not already present. -/
def mergeDefaults (defaults vals : List String) : List String :=
  vals.foldl (fun acc v => if acc.contains v then acc else acc ++ [v]) defaults

/-- The vocabulary load_parquet stores for one filterable column. -/
def vocabFor (t : Table) (col : String) : List String :=
  if lowerIs col "machine" then
    "All" :: mergeDefaults DEFAULT_MACHINES (distinctSorted t col)
  else
    "All" :: distinctSorted t col

/-- The column-classification loop of load_parquet. -/
def classifyCols (cols : List (String × String)) : ColumnsInfo :=
  { categorical := (cols.filter (fun p => isCategoricalDtype p.2)).map Prod.fst
    numerical := (cols.filter (fun p => !(isCategoricalDtype p.2))).map Prod.fst }

/-- Filterable columns: categorical columns whose lowercased name is not a
sample-identifier alias. -/
def filterableCols (info : ColumnsInfo) : List String :=
  info.categorical.filter (fun c => !(lowerIn c sampleAliases))

/-- QCDatabase.load_parquet, applied to the already-parsed table: replace
qc_data, classify columns, build filter options, count rows. -/
def QCDatabase.load_parquet (db : QCDatabase) (t : Table) : QCDatabase :=
  let info := classifyCols t.cols
  { db with
    loaded := true
    qc_data := t
    columns := info
    filter_options := (filterableCols info).map (fun col => (col, vocabFor t col))
    total_rows := t.rows.length }

/-- QCDatabase.load_new_samples. -/
def QCDatabase.load_new_samples (db : QCDatabase) (t : Table) : QCDatabase :=
  { db with
    new_samples := t
    new_samples_loaded := true
    new_samples_rows := t.rows.length }

/-- QCDatabase.clear_new_samples. -/
def QCDatabase.clear_new_samples (db : QCDatabase) : QCDatabase :=
  { db with
    new_samples := emptyTable
    new_samples_loaded := false
    new_samples_rows := 0 }

/-- QCDatabase.query_data: filtered reference rows (errors propagate), plus
new-samples rows — filtered if the predicate binds against new_samples,
otherwise the unfiltered fallback of the except-branch. -/
def QCDatabase.query_data (db : QCDatabase) (fs : List (String × String)) :
    Except SqlError QueryResult :=
  match (if db.loaded then selectWhere db.qc_data fs else Except.ok []) with
  | Except.error e => Except.error e
  | Except.ok refRows =>
    let data := refRows.map (rowToDict db.qc_data)
    let new_data :=
      if db.new_samples_loaded then
        match selectWhere db.new_samples fs with
        | Except.ok nsRows => nsRows.map (rowToDict db.new_samples)
        | Except.error _ => db.new_samples.rows.map (rowToDict db.new_samples)
      else []
    Except.ok { data := data, new_data := new_data }

/-- QCDatabase._detect_sample_name_col: first column of the table (in
declaration order, any dtype) whose lowercased name is an identifier alias. -/
def detect_sample_name_col (t : Table) : Option String :=
  t.names.find? (fun n => lowerIn n sampleAliases)

/-- Mathematical core of the interpolation, on finite values: linear
interpolation at fractional index h over a sorted rational list, between
floor h and the next index, clamped to the last element. -/
def interpAt (s : List ℚ) (h : ℚ) : ℚ :=
  s.getD (Int.toNat ⌊h⌋) 0 +
    (h - ((Int.toNat ⌊h⌋ : ℕ) : ℚ)) *
      (s.getD (min (Int.toNat ⌊h⌋ + 1) (s.length - 1)) 0 - s.getD (Int.toNat ⌊h⌋) 0)

/-- Interpolation at fractional index h over a (sorted) double list, with
IEEE arithmetic: non-finite neighbours propagate into the result. -/
def interpolateAt (s : List PyFloat) (h : ℚ) : PyFloat :=
  pfAdd (s.getD (Int.toNat ⌊h⌋) PyFloat.nan)
    (pfMulRat (h - ((Int.toNat ⌊h⌋ : ℕ) : ℚ))
      (pfSub (s.getD (min (Int.toNat ⌊h⌋ + 1) (s.length - 1)) PyFloat.nan)
        (s.getD (Int.toNat ⌊h⌋) PyFloat.nan)))

/-- PERCENTILE_CONT(p) WITHIN GROUP (ORDER BY col): NULL on the empty
group, otherwise continuous interpolation at p * (n - 1) over the values
sorted in DuckDB double order (NaN greatest).  MEDIAN is
percentileCont (1/2). -/
def percentileCont (p : ℚ) (xs : List PyFloat) : Option PyFloat :=
  let s := List.insertionSort (fun a b => pfLeB a b = true) xs
  if s.isEmpty then Option.none
  else some (interpolateAt s (p * ((s.length - 1 : ℕ) : ℚ)))

/-- MIN aggregate over the non-NULL group (NULL on the empty group; NaN
sorts greatest, so a finite value wins when one exists). -/
def minAgg (xs : List PyFloat) : Option PyFloat :=
  (List.insertionSort (fun a b => pfLeB a b = true) xs).head?

/-- MAX aggregate over the non-NULL group (NULL on the empty group). -/
def maxAgg (xs : List PyFloat) : Option PyFloat :=
  (List.insertionSort (fun a b => pfLeB a b = true) xs).getLast?

/-- The cells of column col across the rows satisfying the filters. -/
def refColCells (t : Table) (fs : List (String × String)) (col : String) :
    List Cell :=
  (t.rows.filter (rowMatchesB t fs)).map (fun r => t.getCell r col)

/-- The non-NULL double values of a cell list (the group the aggregates
see: SQL aggregates skip NULL but not NaN or the infinities). -/
def numVals (cells : List Cell) : List PyFloat :=
  cells.filterMap (fun c =>
    match c with
    | Cell.num f => some f
    | _ => Option.none)

/-- The points query (col IS NOT NULL) followed by per-value _safe_float. -/
def pointsOf (cells : List Cell) : List (Option ℚ) :=
  (cells.filter (fun c => !(c == Cell.null))).map (fun c => safe_float (cellToPyVal c))

/-- Rows of new_samples passing the filters with col non-NULL (first
attempt of the new-points query). -/
def nsSelectedRowsFiltered (ns : Table) (fs : List (String × String)) (col : String) :
    List (List Cell) :=
  (ns.rows.filter (rowMatchesB ns fs)).filter (fun r => !(ns.getCell r col == Cell.null))

/-- Rows of new_samples with col non-NULL (unfiltered retry). -/
def nsSelectedRowsAll (ns : Table) (col : String) : List (List Cell) :=
  ns.rows.filter (fun r => !(ns.getCell r col == Cell.null))

/-- Build one (sanitized) new-samples point from a selected row: label from
the detected name column when present, stringified; value from col. -/
def mkNsPoint (ns : Table) (nameCol : Option String) (col : String) (r : List Cell) :
    NewPoint :=
  match nameCol with
  | some nc =>
      safe_float_obj (PyObj.dict
        { name := some (cellStr (ns.getCell r nc))
          value := cellToPyVal (ns.getCell r col) })
  | Option.none =>
      safe_float_obj (PyObj.dict
        { name := Option.none, value := cellToPyVal (ns.getCell r col) })

/-- The referenced name column binds (trivially true for a detected one). -/
def nsNameColOk (ns : Table) : Option String → Bool
  | some c => ns.hasCol c
  | Option.none => true

/-- The new-points block of get_stats for one numerical column: try the
filtered query; on a binder failure retry unfiltered; on a second failure
yield no points. -/
def nsPointsFor (db : QCDatabase) (fs : List (String × String)) (col : String) :
    List NewPoint :=
  let ns := db.new_samples
  let nameCol := detect_sample_name_col ns
  if whereOk ns fs && ns.hasCol col && nsNameColOk ns nameCol then
    (nsSelectedRowsFiltered ns fs col).map (mkNsPoint ns nameCol col)
  else if ns.hasCol col && nsNameColOk ns nameCol then
    (nsSelectedRowsAll ns col).map (mkNsPoint ns nameCol col)
  else []

/-- The _safe_float application of get_stats to one aggregate result:
NULL stays missing, non-finite doubles become the missing marker. -/
def sanitizeAgg : Option PyFloat → Option ℚ
  | some f => safe_float (PyVal.fl f)
  | Option.none => Option.none

/-- One loop iteration of get_stats: aggregates for col, each passed
through _safe_float, with the all-zero record when MIN came back NULL
(empty non-NULL group). -/
def statForCol (db : QCDatabase) (fs : List (String × String)) (col : String) :
    StatRecord :=
  let cells := refColCells db.qc_data fs col
  let vals := numVals cells
  let nps := if db.new_samples_loaded then nsPointsFor db fs col else []
  match minAgg vals with
  | Option.none =>
      { min := some 0, q1 := some 0, median := some 0, q3 := some 0, max := some 0
        points := [], new_points := nps }
  | some m =>
      { min := safe_float (PyVal.fl m)
        q1 := sanitizeAgg (percentileCont (1/4) vals)
        median := sanitizeAgg (percentileCont (1/2) vals)
        q3 := sanitizeAgg (percentileCont (3/4) vals)
        max := sanitizeAgg (maxAgg vals)
        points := pointsOf cells
        new_points := nps }

/-- QCDatabase.get_stats: empty mapping when the reference table is not
loaded; otherwise one record per numerical column, failing (like the
unguarded aggregate query) when the WHERE clause does not bind against
qc_data. -/
def QCDatabase.get_stats (db : QCDatabase) (fs : List (String × String)) :
    Except SqlError (List (String × StatRecord)) :=
  if db.loaded then
    db.columns.numerical.mapM (fun col =>
      if whereOk db.qc_data fs then Except.ok (col, statForCol db fs col)
      else Except.error SqlError.binder)
  else Except.ok []

inductive ApiError where
  | notLoaded : ApiError
  | internal : ApiError
deriving DecidableEq

/-- The /query route of app.py: reject with the not-loaded error before
touching the database; database errors become a 500. -/
def queryRoute (db : QCDatabase) (fs : List (String × String)) :
    Except ApiError QueryResult :=
  if db.loaded then
    match db.query_data fs with
    | Except.ok r => Except.ok r
    | Except.error _ => Except.error ApiError.internal
  else Except.error ApiError.notLoaded

/-- The /stats route of app.py. -/
def statsRoute (db : QCDatabase) (fs : List (String × String)) :
    Except ApiError (List (String × StatRecord)) :=
  if db.loaded then
    match db.get_stats fs with
    | Except.ok r => Except.ok r
    | Except.error _ => Except.error ApiError.internal
  else Except.error ApiError.notLoaded

/-- Every constrained column is a text column of t (the operating domain of
the filter UI: constraints come from categorical filter vocabularies). -/
def textualFilters (t : Table) (fs : List (String × String)) : Bool :=
  (activeFilters fs).all (fun p => t.hasCol p.1 && isTextualDtype (t.dtypeOf p.1))

/-- The constraint language of the claims: row r satisfies every selection
entry whose value is non-empty and not the All sentinel, by cell equality. -/
def matchesSel (t : Table) (fs : List (String × String)) (r : List Cell) : Prop :=
  ∀ c v, (c, v) ∈ fs → v ≠ "" → v ≠ "All" → t.getCell r c = Cell.str v

theorem Table.wf_nodup {t : Table} (h : t.wf = true) : t.names.Nodup := by
  simp only [Table.wf, Bool.and_eq_true, beq_iff_eq] at h
  exact List.dedup_eq_self.mp h.1

theorem Table.wf_row {t : Table} (h : t.wf = true) {r : List Cell} (hr : r ∈ t.rows) :
    r.length = t.cols.length ∧ ∀ i : ℕ, i < t.cols.length →
      cellOkFor (t.cols.getD i ("", "")).2 (r.getD i Cell.null) = true := by
  simp only [Table.wf, Bool.and_eq_true, List.all_eq_true] at h
  have h2 := h.2 r hr
  simp only [rowOkFor, Bool.and_eq_true, List.all_eq_true, List.mem_range, beq_iff_eq] at h2
  exact h2

theorem Table.hasCol_iff {t : Table} {c : String} : t.hasCol c = true ↔ c ∈ t.names := by
  simp [Table.hasCol]

theorem Table.colIdx_lt {t : Table} {c : String} (h : t.hasCol c = true) :
    t.colIdx c < t.cols.length := by
  have hc : c ∈ t.names := Table.hasCol_iff.mp h
  have hlt : t.colIdx c < t.names.length := List.indexOf_lt_length.mpr hc
  simpa [Table.names] using hlt

theorem Table.getCell_eq {t : Table} {r : List Cell} {c : String} (h : t.hasCol c = true) :
    t.getCell r c = r.getD (t.colIdx c) Cell.null := by
  simp [Table.getCell, h]

theorem Table.wf_getCell_ok {t : Table} (hwf : t.wf = true) {r : List Cell}
    (hr : r ∈ t.rows) {c : String} (hc : t.hasCol c = true) :
    cellOkFor (t.dtypeOf c) (t.getCell r c) = true := by
  have hrow := Table.wf_row hwf hr
  have hlt := Table.colIdx_lt hc
  have hcell := hrow.2 (t.colIdx c) hlt
  rw [Table.getCell_eq hc]
  simpa [Table.dtypeOf] using hcell

theorem textual_is_categorical {d : String} (h : isTextualDtype d = true) :
    isCategoricalDtype d = true := by
  simp only [isTextualDtype, Bool.or_eq_true] at h
  simp only [isCategoricalDtype, Bool.or_eq_true]
  tauto

theorem textual_cell_cases {d : String} {cell : Cell}
    (ht : isTextualDtype d = true) (hok : cellOkFor d cell = true) :
    cell = Cell.null ∨ ∃ s, cell = Cell.str s := by
  cases cell with
  | null => exact Or.inl rfl
  | str s => exact Or.inr ⟨s, rfl⟩
  | num q =>
      exfalso
      simp only [cellOkFor, Bool.not_eq_true'] at hok
      rw [textual_is_categorical ht] at hok
      exact Bool.true_eq_false.mp hok
  | boolean b =>
      exfalso
      simp only [cellOkFor, beq_iff_eq] at hok
      subst hok
      exact absurd ht (by decide)

theorem cellMatches_iff {cell : Cell} {v : String}
    (h : cell = Cell.null ∨ ∃ s, cell = Cell.str s) :
    cellMatches cell v = true ↔ cell = Cell.str v := by
  rcases h with h | ⟨s, h⟩ <;> subst h <;> simp [cellMatches]

theorem mem_activeFilters_iff {fs : List (String × String)} {p : String × String} :
    p ∈ activeFilters fs ↔ p ∈ fs ∧ p.2 ≠ "" ∧ p.2 ≠ "All" := by
  simp [activeFilters, List.mem_filter]

theorem whereOk_of_textual {t : Table} {fs : List (String × String)}
    (h : textualFilters t fs = true) : whereOk t fs = true := by
  simp only [textualFilters, List.all_eq_true, Bool.and_eq_true] at h
  simp only [whereOk, List.all_eq_true]
  exact fun p hp => (h p hp).1

theorem rowMatchesB_iff {t : Table} {fs : List (String × String)} {r : List Cell}
    (hwf : t.wf = true) (hr : r ∈ t.rows) (htex : textualFilters t fs = true) :
    rowMatchesB t fs r = true ↔ matchesSel t fs r := by
  simp only [textualFilters, List.all_eq_true, Bool.and_eq_true] at htex
  simp only [rowMatchesB, List.all_eq_true]
  constructor
  · intro hB c v hmem hv hva
    have hp : (c, v) ∈ activeFilters fs := mem_activeFilters_iff.mpr ⟨hmem, hv, hva⟩
    have h1 := hB _ hp
    have h2 := htex _ hp
    exact (cellMatches_iff (textual_cell_cases h2.2 (Table.wf_getCell_ok hwf hr h2.1))).mp h1
  · intro hM p hp
    obtain ⟨hmem, hv, hva⟩ := mem_activeFilters_iff.mp hp
    have h2 := htex _ hp
    exact (cellMatches_iff (textual_cell_cases h2.2 (Table.wf_getCell_ok hwf hr h2.1))).mpr
      (hM p.1 p.2 hmem hv hva)

theorem query_data_ok {db : QCDatabase} {fs : List (String × String)}
    (hl : db.loaded = true) (hw : whereOk db.qc_data fs = true) :
    db.query_data fs = Except.ok
      { data := (db.qc_data.rows.filter (rowMatchesB db.qc_data fs)).map (rowToDict db.qc_data)
        new_data :=
          if db.new_samples_loaded then
            match selectWhere db.new_samples fs with
            | Except.ok nsRows => nsRows.map (rowToDict db.new_samples)
            | Except.error _ => db.new_samples.rows.map (rowToDict db.new_samples)
          else [] } := by
  simp [QCDatabase.query_data, selectWhere, hl, hw]

/-- C1: with the reference table loaded, the row-retrieval query succeeds
and its reference-rows field contains exactly (the dict forms of) the
reference-table rows satisfying every selection entry whose value is
non-empty and not All — no false positives, no false negatives. -/
theorem query_filters_exact (db : QCDatabase) (fs : List (String × String))
    (hl : db.loaded = true) (hwf : db.qc_data.wf = true)
    (htex : textualFilters db.qc_data fs = true) :
    ∃ res : QueryResult, db.query_data fs = Except.ok res ∧
      (∀ d ∈ res.data, ∃ r ∈ db.qc_data.rows,
          d = rowToDict db.qc_data r ∧ matchesSel db.qc_data fs r) ∧
      (∀ r ∈ db.qc_data.rows, matchesSel db.qc_data fs r →
          rowToDict db.qc_data r ∈ res.data) := by
  refine ⟨_, query_data_ok hl (whereOk_of_textual htex), ?_, ?_⟩
  · intro d hd
    obtain ⟨r, hrf, hrd⟩ := List.mem_map.mp hd
    obtain ⟨hrmem, hrB⟩ := List.mem_filter.mp hrf
    exact ⟨r, hrmem, hrd.symm, (rowMatchesB_iff hwf hrmem htex).mp hrB⟩
  · intro r hrmem hM
    exact List.mem_map.mpr ⟨r, List.mem_filter.mpr
      ⟨hrmem, (rowMatchesB_iff hwf hrmem htex).mpr hM⟩, rfl⟩

theorem whereOk_eq_false {t : Table} {fs : List (String × String)} {c v : String}
    (hmem : (c, v) ∈ fs) (hv : v ≠ "") (hva : v ≠ "All") (habs : t.hasCol c = false) :
    whereOk t fs = false := by
  cases h : whereOk t fs with
  | false => rfl
  | true =>
      exfalso
      simp only [whereOk, List.all_eq_true] at h
      have := h (c, v) (mem_activeFilters_iff.mpr ⟨hmem, hv, hva⟩)
      rw [habs] at this
      exact Bool.false_ne_true this

/-- C4: when the selection emits a constraint on a column absent from the
new-samples schema, the filtered new-samples query fails and query_data
falls back to returning every new-samples row unfiltered, while the
reference-rows result is the usual filtered one, unaffected. -/
theorem query_ns_fallback (db : QCDatabase) (fs : List (String × String)) (c v : String)
    (hl : db.loaded = true) (hns : db.new_samples_loaded = true)
    (hw : whereOk db.qc_data fs = true)
    (hmem : (c, v) ∈ fs) (hv : v ≠ "") (hva : v ≠ "All")
    (habs : db.new_samples.hasCol c = false) :
    db.query_data fs = Except.ok
      { data := (db.qc_data.rows.filter (rowMatchesB db.qc_data fs)).map (rowToDict db.qc_data)
        new_data := db.new_samples.rows.map (rowToDict db.new_samples) } := by
  have hmiss : whereOk db.new_samples fs = false := whereOk_eq_false hmem hv hva habs
  rw [query_data_ok hl hw]
  simp [selectWhere, hmiss, hns]

/-- C6: invoking the /query route before a reference load fails with the
not-loaded error instead of returning rows. -/
theorem query_route_not_loaded (db : QCDatabase) (fs : List (String × String))
    (h : db.loaded = false) :
    queryRoute db fs = Except.error ApiError.notLoaded := by
  simp [queryRoute, h]

/-- C6 witness at the initial state. -/
theorem query_route_not_loaded_witness :
    QCDatabase.init.loaded = false ∧
      queryRoute QCDatabase.init [] = Except.error ApiError.notLoaded :=
  ⟨rfl, query_route_not_loaded QCDatabase.init [] rfl⟩

/-- C7: the statistics operation with no reference table loaded returns the
empty mapping, not an error. -/
theorem stats_not_loaded_empty (db : QCDatabase) (fs : List (String × String))
    (h : db.loaded = false) :
    db.get_stats fs = Except.ok [] := by
  simp [QCDatabase.get_stats, h]

/-- C7 witness at the initial state. -/
theorem stats_not_loaded_empty_witness :
    QCDatabase.init.loaded = false ∧
      QCDatabase.init.get_stats [] = Except.ok [] :=
  ⟨rfl, stats_not_loaded_empty QCDatabase.init [] rfl⟩

/-- C8: sanitizing a finite number returns it unchanged; sanitizing NaN or
either infinity returns the missing marker, never a number — both for the
scalar sanitizer and for the point-record sanitizer on the value field. -/
theorem sanitize_round_trip :
    (∀ q : ℚ, safe_float (PyVal.fl (PyFloat.fin q)) = some q) ∧
    safe_float (PyVal.fl PyFloat.nan) = Option.none ∧
    safe_float (PyVal.fl PyFloat.inf) = Option.none ∧
    safe_float (PyVal.fl PyFloat.ninf) = Option.none ∧
    (∀ (n : Option String) (q : ℚ),
      safe_float_obj (PyObj.dict { name := n, value := PyVal.fl (PyFloat.fin q) }) =
        { name := n, value := some q }) ∧
    (∀ n : Option String,
      (safe_float_obj (PyObj.dict { name := n, value := PyVal.fl PyFloat.nan })).value =
        Option.none) ∧
    (∀ n : Option String,
      (safe_float_obj (PyObj.dict { name := n, value := PyVal.fl PyFloat.inf })).value =
        Option.none) ∧
    (∀ n : Option String,
      (safe_float_obj (PyObj.dict { name := n, value := PyVal.fl PyFloat.ninf })).value =
        Option.none) :=
  ⟨fun _ => rfl, rfl, rfl, rfl, fun _ _ => rfl, fun _ => rfl, fun _ => rfl, fun _ => rfl⟩

/-- C10 (amended): an active filter on a column absent from the reference
schema makes query_data raise, and makes get_stats raise as soon as there
is at least one numerical column to aggregate; the unfiltered fallback
exists only for the new-samples table. -/
theorem unknown_filter_column_raises (db : QCDatabase) (fs : List (String × String))
    (c v : String) (hl : db.loaded = true) (hmem : (c, v) ∈ fs)
    (hv : v ≠ "") (hva : v ≠ "All") (habs : db.qc_data.hasCol c = false) :
    db.query_data fs = Except.error SqlError.binder ∧
      (db.columns.numerical ≠ [] → db.get_stats fs = Except.error SqlError.binder) := by
  have hw : whereOk db.qc_data fs = false := whereOk_eq_false hmem hv hva habs
  constructor
  · simp [QCDatabase.query_data, selectWhere, hl, hw]
  · intro hne
    cases hcols : db.columns.numerical with
    | nil => exact absurd hcols hne
    | cons a rest =>
        simp only [QCDatabase.get_stats, hl, if_true, hcols, hw, if_false]
        rfl

def tW1 : Table :=
  { cols := [("Assay", "VARCHAR"), ("Yield", "DOUBLE")]
    rows := [[Cell.str "WGS", Cell.num (PyFloat.fin 10)], [Cell.str "RNA", Cell.num (PyFloat.fin 5)]] }

def dbW1 : QCDatabase := QCDatabase.init.load_parquet tW1

/-- C1 witness on a concrete loaded table and selection. -/
theorem query_filters_exact_witness :
    dbW1.loaded = true ∧ dbW1.qc_data.wf = true ∧
    textualFilters dbW1.qc_data [("Assay", "WGS")] = true ∧
    (∃ res : QueryResult, dbW1.query_data [("Assay", "WGS")] = Except.ok res ∧
      (∀ d ∈ res.data, ∃ r ∈ dbW1.qc_data.rows,
          d = rowToDict dbW1.qc_data r ∧ matchesSel dbW1.qc_data [("Assay", "WGS")] r) ∧
      (∀ r ∈ dbW1.qc_data.rows, matchesSel dbW1.qc_data [("Assay", "WGS")] r →
          rowToDict dbW1.qc_data r ∈ res.data)) :=
  ⟨rfl, by decide, by decide,
    query_filters_exact dbW1 [("Assay", "WGS")] rfl (by decide) (by decide)⟩

def tW4r : Table :=
  { cols := [("Assay", "VARCHAR")], rows := [[Cell.str "WGS"], [Cell.str "RNA"]] }

def tW4n : Table :=
  { cols := [("Other", "VARCHAR")], rows := [[Cell.str "x"]] }

def dbW4 : QCDatabase := (QCDatabase.init.load_parquet tW4r).load_new_samples tW4n

/-- C4 witness: disjoint new-samples schema, filtered query falls back. -/
theorem query_ns_fallback_witness :
    dbW4.loaded = true ∧ dbW4.new_samples_loaded = true ∧
    whereOk dbW4.qc_data [("Assay", "WGS")] = true ∧
    ("Assay", "WGS") ∈ [(("Assay" : String), ("WGS" : String))] ∧
    ("WGS" : String) ≠ "" ∧ ("WGS" : String) ≠ "All" ∧
    dbW4.new_samples.hasCol "Assay" = false ∧
    dbW4.query_data [("Assay", "WGS")] = Except.ok
      { data := (dbW4.qc_data.rows.filter
          (rowMatchesB dbW4.qc_data [("Assay", "WGS")])).map (rowToDict dbW4.qc_data)
        new_data := dbW4.new_samples.rows.map (rowToDict dbW4.new_samples) } :=
  ⟨rfl, rfl, by decide, by decide, by decide, by decide, by decide,
    query_ns_fallback dbW4 [("Assay", "WGS")] "Assay" "WGS" rfl rfl (by decide)
      (by decide) (by decide) (by decide) (by decide)⟩

def tW10 : Table :=
  { cols := [("Assay", "VARCHAR"), ("Yield", "DOUBLE")]
    rows := [[Cell.str "WGS", Cell.num (PyFloat.fin 1)]] }

def dbW10 : QCDatabase := QCDatabase.init.load_parquet tW10

/-- C10 witness: an unknown filter column makes both operations raise when
a numerical column exists. -/
theorem unknown_filter_column_raises_witness :
    dbW10.loaded = true ∧ ("Bogus", "X") ∈ [(("Bogus" : String), ("X" : String))] ∧
    ("X" : String) ≠ "" ∧ ("X" : String) ≠ "All" ∧
    dbW10.qc_data.hasCol "Bogus" = false ∧
    (dbW10.query_data [("Bogus", "X")] = Except.error SqlError.binder ∧
      (dbW10.columns.numerical ≠ [] →
        dbW10.get_stats [("Bogus", "X")] = Except.error SqlError.binder)) :=
  ⟨rfl, by decide, by decide, by decide, by decide,
    unknown_filter_column_raises dbW10 [("Bogus", "X")] "Bogus" "X" rfl (by decide)
      (by decide) (by decide) (by decide)⟩

def tX10 : Table :=
  { cols := [("Assay", "VARCHAR")], rows := [[Cell.str "WGS"]] }

def dbX10 : QCDatabase := QCDatabase.init.load_parquet tX10

/-- C10 counterexample to the claim as stated: with a reference table that
has no numerical column, an active filter on a column absent from the
schema does NOT make the statistics operation raise — it returns the empty
mapping successfully. -/
theorem unknown_filter_column_stats_counterexample :
    dbX10.loaded = true ∧ ("Bogus", "X") ∈ [(("Bogus" : String), ("X" : String))] ∧
    ("X" : String) ≠ "" ∧ ("X" : String) ≠ "All" ∧
    dbX10.qc_data.hasCol "Bogus" = false ∧
    dbX10.get_stats [("Bogus", "X")] = Except.ok [] :=
  ⟨rfl, by decide, by decide, by decide, by decide, rfl⟩

theorem getD_mono_of_sorted {s : List ℚ} (hs : List.Sorted (· ≤ ·) s)
    {i j : ℕ} (hij : i ≤ j) (hj : j < s.length) : s.getD i 0 ≤ s.getD j 0 := by
  have hi : i < s.length := Nat.lt_of_le_of_lt hij hj
  rw [List.getD_eq_getElem s 0 hi, List.getD_eq_getElem s 0 hj]
  rcases Nat.eq_or_lt_of_le hij with h | h
  · subst h; exact le_refl _
  · have hrel := @List.Sorted.rel_get_of_lt ℚ (· ≤ ·) s hs ⟨i, hi⟩ ⟨j, hj⟩ h
    simpa [List.get_eq_getElem] using hrel

theorem toNat_floor_cast_le {x : ℚ} (h0 : 0 ≤ x) :
    ((Int.toNat ⌊x⌋ : ℕ) : ℚ) ≤ x := by
  have hfl0 : (0 : ℤ) ≤ ⌊x⌋ := Int.floor_nonneg.mpr h0
  have htn : ((Int.toNat ⌊x⌋ : ℕ) : ℤ) = ⌊x⌋ := Int.toNat_of_nonneg hfl0
  have h2 : ((⌊x⌋ : ℤ) : ℚ) ≤ x := Int.floor_le x
  have h3 : ((Int.toNat ⌊x⌋ : ℕ) : ℚ) = ((⌊x⌋ : ℤ) : ℚ) := by exact_mod_cast htn
  linarith

theorem sub_toNat_floor_lt_one {x : ℚ} (h0 : 0 ≤ x) :
    x - ((Int.toNat ⌊x⌋ : ℕ) : ℚ) < 1 := by
  have hfl0 : (0 : ℤ) ≤ ⌊x⌋ := Int.floor_nonneg.mpr h0
  have htn : ((Int.toNat ⌊x⌋ : ℕ) : ℤ) = ⌊x⌋ := Int.toNat_of_nonneg hfl0
  have h2 : x < ((⌊x⌋ : ℤ) : ℚ) + 1 := Int.lt_floor_add_one x
  have h3 : ((Int.toNat ⌊x⌋ : ℕ) : ℚ) = ((⌊x⌋ : ℤ) : ℚ) := by exact_mod_cast htn
  linarith

theorem toNat_floor_le_of_le {x : ℚ} {m : ℕ} (h0 : 0 ≤ x) (hx : x ≤ (m : ℚ)) :
    Int.toNat ⌊x⌋ ≤ m := by
  have h3 : ((Int.toNat ⌊x⌋ : ℕ) : ℚ) ≤ (m : ℚ) := le_trans (toNat_floor_cast_le h0) hx
  exact_mod_cast h3

theorem interpAt_between {s : List ℚ} (hs : List.Sorted (· ≤ ·) s) (hne : s ≠ [])
    {h : ℚ} (h0 : 0 ≤ h) (h1 : h ≤ ((s.length - 1 : ℕ) : ℚ)) :
    s.getD (Int.toNat ⌊h⌋) 0 ≤ interpAt s h ∧
      interpAt s h ≤ s.getD (min (Int.toNat ⌊h⌋ + 1) (s.length - 1)) 0 := by
  have hn : 0 < s.length := List.length_pos.mpr hne
  have hile : ((Int.toNat ⌊h⌋ : ℕ) : ℚ) ≤ h := toNat_floor_cast_le h0
  have hlt1 : h - ((Int.toNat ⌊h⌋ : ℕ) : ℚ) < 1 := sub_toNat_floor_lt_one h0
  have hi_le : Int.toNat ⌊h⌋ ≤ s.length - 1 := toNat_floor_le_of_le h0 h1
  have hmin_lt : min (Int.toNat ⌊h⌋ + 1) (s.length - 1) < s.length := by omega
  have hAB : s.getD (Int.toNat ⌊h⌋) 0 ≤
      s.getD (min (Int.toNat ⌊h⌋ + 1) (s.length - 1)) 0 :=
    getD_mono_of_sorted hs (by omega) hmin_lt
  constructor
  · have hprod : 0 ≤ (h - ((Int.toNat ⌊h⌋ : ℕ) : ℚ)) *
        (s.getD (min (Int.toNat ⌊h⌋ + 1) (s.length - 1)) 0 - s.getD (Int.toNat ⌊h⌋) 0) :=
      mul_nonneg (by linarith) (by linarith)
    simp only [interpAt]
    linarith
  · have hkey : (h - ((Int.toNat ⌊h⌋ : ℕ) : ℚ)) *
        (s.getD (min (Int.toNat ⌊h⌋ + 1) (s.length - 1)) 0 - s.getD (Int.toNat ⌊h⌋) 0) ≤
        1 * (s.getD (min (Int.toNat ⌊h⌋ + 1) (s.length - 1)) 0 - s.getD (Int.toNat ⌊h⌋) 0) :=
      mul_le_mul_of_nonneg_right (by linarith) (by linarith)
    simp only [interpAt]
    linarith

theorem interpAt_mono {s : List ℚ} (hs : List.Sorted (· ≤ ·) s) (hne : s ≠ [])
    {g h : ℚ} (h0 : 0 ≤ g) (hgh : g ≤ h) (h1 : h ≤ ((s.length - 1 : ℕ) : ℚ)) :
    interpAt s g ≤ interpAt s h := by
  have hn : 0 < s.length := List.length_pos.mpr hne
  have hg1 : g ≤ ((s.length - 1 : ℕ) : ℚ) := le_trans hgh h1
  have hh0 : 0 ≤ h := le_trans h0 hgh
  have hbg := interpAt_between hs hne h0 hg1
  have hbh := interpAt_between hs hne hh0 h1
  have hih_le : Int.toNat ⌊h⌋ ≤ s.length - 1 := toNat_floor_le_of_le hh0 h1
  have hij : Int.toNat ⌊g⌋ ≤ Int.toNat ⌊h⌋ := by
    have := Int.floor_le_floor hgh
    omega
  rcases Nat.eq_or_lt_of_le hij with heq | hlt
  · have hig_le : Int.toNat ⌊g⌋ ≤ s.length - 1 := toNat_floor_le_of_le h0 hg1
    have hAB : s.getD (Int.toNat ⌊g⌋) 0 ≤
        s.getD (min (Int.toNat ⌊g⌋ + 1) (s.length - 1)) 0 :=
      getD_mono_of_sorted hs (by omega) (by omega)
    have hgle : ((Int.toNat ⌊g⌋ : ℕ) : ℚ) ≤ g := toNat_floor_cast_le h0
    simp only [interpAt, ← heq]
    have hmul : (g - ((Int.toNat ⌊g⌋ : ℕ) : ℚ)) *
        (s.getD (min (Int.toNat ⌊g⌋ + 1) (s.length - 1)) 0 - s.getD (Int.toNat ⌊g⌋) 0) ≤
        (h - ((Int.toNat ⌊g⌋ : ℕ) : ℚ)) *
        (s.getD (min (Int.toNat ⌊g⌋ + 1) (s.length - 1)) 0 - s.getD (Int.toNat ⌊g⌋) 0) :=
      mul_le_mul_of_nonneg_right (by linarith) (by linarith)
    linarith
  · have hmid : s.getD (min (Int.toNat ⌊g⌋ + 1) (s.length - 1)) 0 ≤
        s.getD (Int.toNat ⌊h⌋) 0 :=
      getD_mono_of_sorted hs (by omega) (by omega)
    exact le_trans hbg.2 (le_trans hmid hbh.1)

theorem insertionSort_ne_nil {α : Type} (r : α → α → Prop) [DecidableRel r]
    {xs : List α} (hne : xs ≠ []) : List.insertionSort r xs ≠ [] := by
  intro hcon
  have hperm := List.perm_insertionSort r xs
  rw [hcon] at hperm
  exact hne hperm.symm.eq_nil

/-- The mathematical core of C2 at the rational level: over a nonempty
group of finite values, head, the three interpolated quartiles, and last
of the sorted list form an ascending chain. -/
theorem box_chain_rat (vals : List ℚ) (hne : vals ≠ []) :
    ∃ a b c d e,
      (List.insertionSort (· ≤ ·) vals).head? = some a ∧
      interpAt (List.insertionSort (· ≤ ·) vals)
        ((1/4 : ℚ) * (((List.insertionSort (· ≤ ·) vals).length - 1 : ℕ) : ℚ)) = b ∧
      interpAt (List.insertionSort (· ≤ ·) vals)
        ((1/2 : ℚ) * (((List.insertionSort (· ≤ ·) vals).length - 1 : ℕ) : ℚ)) = c ∧
      interpAt (List.insertionSort (· ≤ ·) vals)
        ((3/4 : ℚ) * (((List.insertionSort (· ≤ ·) vals).length - 1 : ℕ) : ℚ)) = d ∧
      (List.insertionSort (· ≤ ·) vals).getLast? = some e ∧
      a ≤ b ∧ b ≤ c ∧ c ≤ d ∧ d ≤ e := by
  have hs : List.Sorted (· ≤ ·) (List.insertionSort (· ≤ ·) vals) :=
    List.sorted_insertionSort _ _
  have hsne : List.insertionSort (· ≤ ·) vals ≠ [] := insertionSort_ne_nil _ hne
  set s := List.insertionSort (· ≤ ·) vals with hsdef
  have hn : 0 < s.length := List.length_pos.mpr hsne
  have hhead : s.head? = some (s.getD 0 0) := by
    cases hcase : s with
    | nil => exact absurd hcase hsne
    | cons x t => rfl
  have hlast : s.getLast? = some (s.getD (s.length - 1) 0) := by
    rw [List.getLast?_eq_getLast_of_ne_nil hsne]
    congr 1
    rw [List.getLast_eq_getElem, List.getD_eq_getElem _ _ (by omega)]
  have hc0 : (0 : ℚ) ≤ ((s.length - 1 : ℕ) : ℚ) := Nat.cast_nonneg _
  have h14x : (0 : ℚ) ≤ (1/4 : ℚ) * ((s.length - 1 : ℕ) : ℚ) :=
    mul_nonneg (by norm_num) hc0
  have h12x : (0 : ℚ) ≤ (1/2 : ℚ) * ((s.length - 1 : ℕ) : ℚ) :=
    mul_nonneg (by norm_num) hc0
  have h1412 : (1/4 : ℚ) * ((s.length - 1 : ℕ) : ℚ) ≤
      (1/2 : ℚ) * ((s.length - 1 : ℕ) : ℚ) :=
    mul_le_mul_of_nonneg_right (by norm_num) hc0
  have h1234 : (1/2 : ℚ) * ((s.length - 1 : ℕ) : ℚ) ≤
      (3/4 : ℚ) * ((s.length - 1 : ℕ) : ℚ) :=
    mul_le_mul_of_nonneg_right (by norm_num) hc0
  have h34top : (3/4 : ℚ) * ((s.length - 1 : ℕ) : ℚ) ≤ ((s.length - 1 : ℕ) : ℚ) :=
    mul_le_of_le_one_left hc0 (by norm_num)
  have h12top : (1/2 : ℚ) * ((s.length - 1 : ℕ) : ℚ) ≤ ((s.length - 1 : ℕ) : ℚ) :=
    le_trans h1234 h34top
  have h14top : (1/4 : ℚ) * ((s.length - 1 : ℕ) : ℚ) ≤ ((s.length - 1 : ℕ) : ℚ) :=
    le_trans h1412 h12top
  have hb14 := interpAt_between hs hsne h14x h14top
  have hb34 := interpAt_between hs hsne (le_trans h12x h1234) h34top
  refine ⟨s.getD 0 0,
    interpAt s ((1/4 : ℚ) * ((s.length - 1 : ℕ) : ℚ)),
    interpAt s ((1/2 : ℚ) * ((s.length - 1 : ℕ) : ℚ)),
    interpAt s ((3/4 : ℚ) * ((s.length - 1 : ℕ) : ℚ)),
    s.getD (s.length - 1) 0,
    hhead, rfl, rfl, rfl, hlast, ?_, ?_, ?_, ?_⟩
  · have hi_le : Int.toNat ⌊(1/4 : ℚ) * ((s.length - 1 : ℕ) : ℚ)⌋ ≤ s.length - 1 :=
      toNat_floor_le_of_le h14x h14top
    exact le_trans (getD_mono_of_sorted hs (Nat.zero_le _) (by omega)) hb14.1
  · exact interpAt_mono hs hsne h14x h1412 h12top
  · exact interpAt_mono hs hsne h12x h1234 h34top
  · have hmin_le : min (Int.toNat ⌊(3/4 : ℚ) * ((s.length - 1 : ℕ) : ℚ)⌋ + 1)
        (s.length - 1) ≤ s.length - 1 := by omega
    exact le_trans hb34.2 (getD_mono_of_sorted hs hmin_le (by omega))

theorem orderedInsert_map_fin (x : ℚ) (l : List ℚ) :
    List.orderedInsert (fun a b => pfLeB a b = true) (PyFloat.fin x) (l.map PyFloat.fin) =
      (List.orderedInsert (· ≤ ·) x l).map PyFloat.fin := by
  induction l with
  | nil => rfl
  | cons b t ih =>
      simp only [List.map_cons, List.orderedInsert]
      by_cases hxb : x ≤ b
      · rw [if_pos (by simp [pfLeB, hxb]), if_pos hxb]
        rfl
      · rw [if_neg (by simp [pfLeB, hxb]), if_neg hxb, List.map_cons, ih]

theorem insertionSort_map_fin (l : List ℚ) :
    List.insertionSort (fun a b => pfLeB a b = true) (l.map PyFloat.fin) =
      (List.insertionSort (· ≤ ·) l).map PyFloat.fin := by
  induction l with
  | nil => rfl
  | cons a t ih =>
      simp only [List.map_cons, List.insertionSort, ih, orderedInsert_map_fin]

theorem getD_map_fin {l : List ℚ} {i : ℕ} (h : i < l.length) (d : PyFloat) :
    (l.map PyFloat.fin).getD i d = PyFloat.fin (l.getD i 0) := by
  rw [List.getD_eq_getElem _ _ (by simpa using h), List.getD_eq_getElem _ _ h,
    List.getElem_map]

theorem interpolateAt_map_fin {s : List ℚ} (hne : s ≠ []) {h : ℚ} (h0 : 0 ≤ h)
    (h1 : h ≤ ((s.length - 1 : ℕ) : ℚ)) :
    interpolateAt (s.map PyFloat.fin) h = PyFloat.fin (interpAt s h) := by
  have hn : 0 < s.length := List.length_pos.mpr hne
  have hi_le : Int.toNat ⌊h⌋ ≤ s.length - 1 := toNat_floor_le_of_le h0 h1
  have hi_lt : Int.toNat ⌊h⌋ < s.length := by omega
  have hj_lt : min (Int.toNat ⌊h⌋ + 1) (s.length - 1) < s.length := by omega
  simp only [interpolateAt, interpAt, List.length_map]
  rw [getD_map_fin hi_lt, getD_map_fin hj_lt]
  rfl

theorem percentileCont_map_fin (p : ℚ) (qs : List ℚ) (hne : qs ≠ [])
    (hp0 : 0 ≤ p) (hp1 : p ≤ 1) :
    percentileCont p (qs.map PyFloat.fin) =
      some (PyFloat.fin (interpAt (List.insertionSort (· ≤ ·) qs)
        (p * (((List.insertionSort (· ≤ ·) qs).length - 1 : ℕ) : ℚ)))) := by
  have hsQne : List.insertionSort (· ≤ ·) qs ≠ [] := insertionSort_ne_nil _ hne
  have hc0 : (0 : ℚ) ≤ (((List.insertionSort (· ≤ ·) qs).length - 1 : ℕ) : ℚ) :=
    Nat.cast_nonneg _
  have h0 : 0 ≤ p * (((List.insertionSort (· ≤ ·) qs).length - 1 : ℕ) : ℚ) :=
    mul_nonneg hp0 hc0
  have h1 : p * (((List.insertionSort (· ≤ ·) qs).length - 1 : ℕ) : ℚ) ≤
      (((List.insertionSort (· ≤ ·) qs).length - 1 : ℕ) : ℚ) :=
    mul_le_of_le_one_left hc0 hp1
  have hempty : ((List.insertionSort (· ≤ ·) qs).map PyFloat.fin).isEmpty = false := by
    cases hcase : List.insertionSort (· ≤ ·) qs with
    | nil => exact absurd hcase hsQne
    | cons x t => simp
  simp only [percentileCont, insertionSort_map_fin, hempty, Bool.false_eq_true,
    if_false, List.length_map]
  rw [interpolateAt_map_fin hsQne h0 h1]

/-- Box statistics over a nonempty all-finite value group are defined,
finite, and ordered. -/
theorem box_stats_ordered_fin (qs : List ℚ) (hne : qs ≠ []) :
    ∃ a b c d e,
      minAgg (qs.map PyFloat.fin) = some (PyFloat.fin a) ∧
      percentileCont (1/4) (qs.map PyFloat.fin) = some (PyFloat.fin b) ∧
      percentileCont (1/2) (qs.map PyFloat.fin) = some (PyFloat.fin c) ∧
      percentileCont (3/4) (qs.map PyFloat.fin) = some (PyFloat.fin d) ∧
      maxAgg (qs.map PyFloat.fin) = some (PyFloat.fin e) ∧
      a ≤ b ∧ b ≤ c ∧ c ≤ d ∧ d ≤ e := by
  obtain ⟨a, b, c, d, e, ha, hb, hc, hd, he, o1, o2, o3, o4⟩ := box_chain_rat qs hne
  refine ⟨a, b, c, d, e, ?_, ?_, ?_, ?_, ?_, o1, o2, o3, o4⟩
  · rw [show minAgg (qs.map PyFloat.fin) =
        (List.insertionSort (fun a b => pfLeB a b = true) (qs.map PyFloat.fin)).head?
      from rfl, insertionSort_map_fin, List.head?_map, ha]
    rfl
  · rw [percentileCont_map_fin (1/4) qs hne (by norm_num) (by norm_num), hb]
  · rw [percentileCont_map_fin (1/2) qs hne (by norm_num) (by norm_num), hc]
  · rw [percentileCont_map_fin (3/4) qs hne (by norm_num) (by norm_num), hd]
  · rw [show maxAgg (qs.map PyFloat.fin) =
        (List.insertionSort (fun a b => pfLeB a b = true) (qs.map PyFloat.fin)).getLast?
      from rfl, insertionSort_map_fin, List.getLast?_map, he]
    rfl

theorem exists_map_fin {vals : List PyFloat}
    (h : ∀ f ∈ vals, ∃ q : ℚ, f = PyFloat.fin q) :
    ∃ qs : List ℚ, vals = qs.map PyFloat.fin := by
  induction vals with
  | nil => exact ⟨[], rfl⟩
  | cons a t ih =>
      obtain ⟨q, hq⟩ := h a (by simp)
      obtain ⟨qs, hqs⟩ := ih (fun f hf => h f (by simp [hf]))
      exact ⟨q :: qs, by rw [List.map_cons, ← hq, ← hqs]⟩

theorem mapM_ok_of_forall {α β : Type} (f : α → Except SqlError β) (g : α → β)
    (xs : List α) (h : ∀ a ∈ xs, f a = Except.ok (g a)) :
    xs.mapM f = Except.ok (xs.map g) := by
  induction xs with
  | nil => rfl
  | cons a t ih =>
      rw [List.mapM_cons, h a (by simp), ih (fun x hx => h x (by simp [hx]))]
      rfl

/-- C2 (amended): with the reference table loaded and a bindable
selection, the statistics operation succeeds, and for every numerical
column: when at least one non-NULL filtered value exists and every
non-NULL filtered value is finite, the five statistics are numbers
satisfying min ≤ q1 ≤ median ≤ q3 ≤ max; and when zero non-NULL filtered
values exist, all five statistics are 0 and points is empty. -/
theorem get_stats_box_ordered (db : QCDatabase) (fs : List (String × String))
    (hl : db.loaded = true) (hw : whereOk db.qc_data fs = true) :
    ∃ out, db.get_stats fs = Except.ok out ∧
      ∀ col rec, (col, rec) ∈ out →
        (numVals (refColCells db.qc_data fs col) = [] →
          rec.min = some 0 ∧ rec.q1 = some 0 ∧ rec.median = some 0 ∧
          rec.q3 = some 0 ∧ rec.max = some 0 ∧ rec.points = []) ∧
        (numVals (refColCells db.qc_data fs col) ≠ [] →
          (∀ f ∈ numVals (refColCells db.qc_data fs col), ∃ q : ℚ, f = PyFloat.fin q) →
          ∃ a b c d e, rec.min = some a ∧ rec.q1 = some b ∧ rec.median = some c ∧
            rec.q3 = some d ∧ rec.max = some e ∧
            a ≤ b ∧ b ≤ c ∧ c ≤ d ∧ d ≤ e) := by
  refine ⟨db.columns.numerical.map (fun col => (col, statForCol db fs col)), ?_, ?_⟩
  · simp only [QCDatabase.get_stats, hl, if_true]
    exact mapM_ok_of_forall _ _ _ (fun col hcol => by rw [if_pos hw])
  · intro col rec hmem
    obtain ⟨x, hx, heq⟩ := List.mem_map.mp hmem
    simp only [Prod.mk.injEq] at heq
    obtain ⟨rfl, rfl⟩ := heq
    constructor
    · intro hnil
      have hmin : minAgg (numVals (refColCells db.qc_data fs x)) = Option.none := by
        rw [hnil]; rfl
      simp [statForCol, hmin]
    · intro hvne hallfin
      obtain ⟨qs, hmap⟩ := exists_map_fin hallfin
      have hqne : qs ≠ [] := by
        intro hcon
        rw [hcon] at hmap
        exact hvne (by simpa using hmap)
      obtain ⟨a, b, c, d, e, ha0, hb0, hc0, hd0, he0, o1, o2, o3, o4⟩ :=
        box_stats_ordered_fin qs hqne
      have ha : minAgg (numVals (refColCells db.qc_data fs x)) =
          some (PyFloat.fin a) := by rw [hmap]; exact ha0
      have hb : percentileCont (1/4) (numVals (refColCells db.qc_data fs x)) =
          some (PyFloat.fin b) := by rw [hmap]; exact hb0
      have hc : percentileCont (1/2) (numVals (refColCells db.qc_data fs x)) =
          some (PyFloat.fin c) := by rw [hmap]; exact hc0
      have hd : percentileCont (3/4) (numVals (refColCells db.qc_data fs x)) =
          some (PyFloat.fin d) := by rw [hmap]; exact hd0
      have he : maxAgg (numVals (refColCells db.qc_data fs x)) =
          some (PyFloat.fin e) := by rw [hmap]; exact he0
      exact ⟨a, b, c, d, e, by simp only [statForCol, ha]; rfl,
        by simp only [statForCol, ha, hb]; rfl,
        by simp only [statForCol, ha, hc]; rfl,
        by simp only [statForCol, ha, hd]; rfl,
        by simp only [statForCol, ha, he]; rfl, o1, o2, o3, o4⟩

def tW2 : Table :=
  { cols := [("Grp", "VARCHAR"), ("Score", "DOUBLE")]
    rows := [[Cell.str "a", Cell.num (PyFloat.fin 10)], [Cell.str "a", Cell.num (PyFloat.fin 20)],
             [Cell.str "b", Cell.num (PyFloat.fin 5)]] }

def dbW2 : QCDatabase := QCDatabase.init.load_parquet tW2

/-- C2 witness on a concrete loaded table with an empty selection. -/
theorem get_stats_box_ordered_witness :
    dbW2.loaded = true ∧ whereOk dbW2.qc_data [] = true ∧
    (∃ out, dbW2.get_stats [] = Except.ok out ∧
      ∀ col rec, (col, rec) ∈ out →
        (numVals (refColCells dbW2.qc_data [] col) = [] →
          rec.min = some 0 ∧ rec.q1 = some 0 ∧ rec.median = some 0 ∧
          rec.q3 = some 0 ∧ rec.max = some 0 ∧ rec.points = []) ∧
        (numVals (refColCells dbW2.qc_data [] col) ≠ [] →
          (∀ f ∈ numVals (refColCells dbW2.qc_data [] col), ∃ q : ℚ, f = PyFloat.fin q) →
          ∃ a b c d e, rec.min = some a ∧ rec.q1 = some b ∧ rec.median = some c ∧
            rec.q3 = some d ∧ rec.max = some e ∧
            a ≤ b ∧ b ≤ c ∧ c ≤ d ∧ d ≤ e)) :=
  ⟨rfl, rfl, get_stats_box_ordered dbW2 [] rfl rfl⟩

def tXC2 : Table :=
  { cols := [("Yield", "DOUBLE")], rows := [[Cell.num PyFloat.nan]] }

def dbXC2 : QCDatabase := QCDatabase.init.load_parquet tXC2

/-- C2 counterexample to the claim as stated: a reference column holding a
single NaN has one non-NULL filtered value (the aggregates see it) but
_safe_float turns every statistic into the missing marker, so no ordered
chain of numbers is returned; and read with non-finite values as missing,
zero non-missing values exist yet the statistics are not 0 and the points
sequence is the non-empty [missing]. -/
theorem get_stats_box_ordered_counterexample :
    numVals (refColCells dbXC2.qc_data [] "Yield") = [PyFloat.nan] ∧
    dbXC2.get_stats [] = Except.ok [("Yield",
      { min := Option.none, q1 := Option.none, median := Option.none,
        q3 := Option.none, max := Option.none,
        points := [Option.none], new_points := [] })] ∧
    (Option.none : Option ℚ) ≠ some 0 ∧
    ([Option.none] : List (Option ℚ)) ≠ [] :=
  ⟨by decide, by with_unfolding_all rfl, by decide, by decide⟩

theorem lookup_map_key {α : Type} (l : List String) (f : String → α) {c : String}
    (h : c ∈ l) :
    List.lookup c (l.map (fun x => (x, f x))) = some (f c) := by
  induction l with
  | nil => cases h
  | cons a t ih =>
      by_cases hca : c = a
      · subst hca; simp [List.lookup]
      · have hmem : c ∈ t := by
          rcases List.mem_cons.mp h with h1 | h1
          · exact absurd h1 hca
          · exact h1
        simp [List.lookup, beq_false_of_ne hca]
        exact ih hmem

theorem lookup_map_key_none {α : Type} (l : List String) (f : String → α) {c : String}
    (h : c ∉ l) :
    List.lookup c (l.map (fun x => (x, f x))) = Option.none := by
  induction l with
  | nil => rfl
  | cons a t ih =>
      have hca : c ≠ a := fun hh => h (hh ▸ List.mem_cons_self a t)
      simp [List.lookup, beq_false_of_ne hca]
      intro x hx hcx
      subst hcx
      exact h (List.mem_cons_of_mem _ hx)

theorem mergeDefaults_eq (defaults : List String) (vals : List String)
    (h : vals.Nodup) :
    mergeDefaults defaults vals =
      defaults ++ vals.filter (fun v => !(defaults.contains v)) := by
  induction vals generalizing defaults with
  | nil => simp [mergeDefaults]
  | cons v vs ih =>
      have hv : v ∉ vs := (List.nodup_cons.mp h).1
      have hvs : vs.Nodup := (List.nodup_cons.mp h).2
      rw [show mergeDefaults defaults (v :: vs) =
          mergeDefaults (if defaults.contains v then defaults else defaults ++ [v]) vs
        from rfl]
      by_cases hmem : defaults.contains v = true
      · rw [if_pos hmem, ih defaults hvs]
        congr 1
        rw [List.filter_cons]
        have hmemP : v ∈ defaults := by simpa using hmem
        simp [hmemP]
      · have hb : defaults.contains v = false := by
          cases hcv : defaults.contains v
          · rfl
          · exact absurd hcv hmem
        rw [if_neg hmem, ih (defaults ++ [v]) hvs]
        have hfil : vs.filter (fun u => !((defaults ++ [v]).contains u)) =
            vs.filter (fun u => !(defaults.contains u)) := by
          apply List.filter_congr
          intro u hu
          have huv : u ≠ v := fun hh => hv (hh ▸ hu)
          simp [List.contains, List.elem_eq_mem, List.mem_append, huv]
        rw [hfil, List.append_assoc]
        congr 1
        rw [List.filter_cons]
        have hmemP : v ∉ defaults := by simpa using hb
        simp [hmemP]

theorem distinctSorted_nodup (t : Table) (c : String) : (distinctSorted t c).Nodup := by
  have hd := List.nodup_dedup (t.rows.filterMap (fun r =>
      match t.getCell r c with
      | Cell.null => Option.none
      | cell => some (cellStr cell)))
  have hperm := List.perm_insertionSort (fun a b => strLeB a b = true)
    ((t.rows.filterMap (fun r =>
      match t.getCell r c with
      | Cell.null => Option.none
      | cell => some (cellStr cell))).dedup)
  exact (hperm.nodup_iff).mpr hd

theorem load_parquet_filter_options (db : QCDatabase) (t : Table) :
    (db.load_parquet t).filter_options =
      (filterableCols (classifyCols t.cols)).map (fun col => (col, vocabFor t col)) := rfl

/-- C3: for a categorical column whose lowercased name is machine, the
stored vocabulary is the sentinel All, then the default machine list in
its original order, then each observed distinct value not among the
defaults, exactly once, in observed relative order, with no duplicates. -/
theorem machine_vocab_merge (db : QCDatabase) (t : Table) (col : String)
    (hcat : col ∈ (classifyCols t.cols).categorical)
    (hm : lowerIs col "machine" = true) :
    List.lookup col ((db.load_parquet t).filter_options) =
      some ("All" :: (DEFAULT_MACHINES ++
        (distinctSorted t col).filter (fun v => !(DEFAULT_MACHINES.contains v)))) ∧
    (DEFAULT_MACHINES ++
        (distinctSorted t col).filter (fun v => !(DEFAULT_MACHINES.contains v))).Nodup := by
  have hnotalias : lowerIn col sampleAliases = false := by
    have hk : lowerKey col = lowerKey "machine" := by
      simpa [lowerIs] using hm
    have hrw : lowerIn col sampleAliases = lowerIn "machine" sampleAliases := by
      simp only [lowerIn, lowerIs, hk]
    rw [hrw]
    decide
  have hfil : col ∈ filterableCols (classifyCols t.cols) :=
    List.mem_filter.mpr ⟨hcat, by rw [hnotalias]; rfl⟩
  constructor
  · rw [load_parquet_filter_options,
      lookup_map_key (filterableCols (classifyCols t.cols)) (fun x => vocabFor t x) hfil]
    rw [show vocabFor t col =
        "All" :: mergeDefaults DEFAULT_MACHINES (distinctSorted t col) from by
      simp [vocabFor, hm]]
    rw [mergeDefaults_eq _ _ (distinctSorted_nodup t col)]
  · apply List.Nodup.append
    · decide
    · exact (distinctSorted_nodup t col).filter _
    · intro a had haf
      have hpred := (List.mem_filter.mp haf).2
      have hc : DEFAULT_MACHINES.contains a = true := List.elem_eq_true_of_mem had
      rw [hc] at hpred
      simp at hpred

def tW3 : Table := { cols := [("Machine", "VARCHAR")], rows := [[Cell.str "HiSeq"]] }

/-- C3 witness: scenario C, defaults first, then the unseen observed value. -/
theorem machine_vocab_merge_witness :
    "Machine" ∈ (classifyCols tW3.cols).categorical ∧
    lowerIs "Machine" "machine" = true ∧
    (List.lookup "Machine" ((QCDatabase.init.load_parquet tW3).filter_options) =
      some ("All" :: (DEFAULT_MACHINES ++
        (distinctSorted tW3 "Machine").filter (fun v => !(DEFAULT_MACHINES.contains v)))) ∧
     (DEFAULT_MACHINES ++
        (distinctSorted tW3 "Machine").filter (fun v => !(DEFAULT_MACHINES.contains v))).Nodup) :=
  ⟨by decide, by decide,
    machine_vocab_merge QCDatabase.init tW3 "Machine" (by decide) (by decide)⟩

/-- C5: identifier-alias categorical columns get no vocabulary entry; every
other categorical column gets a vocabulary whose first entry is All; and a
selection entry whose value is empty or All contributes no constraint. -/
theorem filter_options_all_sentinel (db : QCDatabase) (t : Table) (col c v : String)
    (fs : List (String × String)) :
    (lowerIn col sampleAliases = true →
      List.lookup col ((db.load_parquet t).filter_options) = Option.none) ∧
    (col ∈ (classifyCols t.cols).categorical → lowerIn col sampleAliases = false →
      ∃ vs, List.lookup col ((db.load_parquet t).filter_options) = some ("All" :: vs)) ∧
    ((v = "" ∨ v = "All") → activeFilters ((c, v) :: fs) = activeFilters fs) := by
  refine ⟨?_, ?_, ?_⟩
  · intro halias
    rw [load_parquet_filter_options]
    apply lookup_map_key_none
    intro hmem
    have hpred := (List.mem_filter.mp hmem).2
    rw [halias] at hpred
    simp at hpred
  · intro hcat hnal
    have hfil : col ∈ filterableCols (classifyCols t.cols) :=
      List.mem_filter.mpr ⟨hcat, by rw [hnal]; rfl⟩
    by_cases hm : lowerIs col "machine" = true
    · refine ⟨mergeDefaults DEFAULT_MACHINES (distinctSorted t col), ?_⟩
      rw [load_parquet_filter_options,
        lookup_map_key (filterableCols (classifyCols t.cols)) (fun x => vocabFor t x) hfil]
      simp [vocabFor, hm]
    · refine ⟨distinctSorted t col, ?_⟩
      rw [load_parquet_filter_options,
        lookup_map_key (filterableCols (classifyCols t.cols)) (fun x => vocabFor t x) hfil]
      simp [vocabFor, hm]
  · intro hv
    rcases hv with hv | hv <;> subst hv <;> simp [activeFilters]

def tW5 : Table :=
  { cols := [("Sample_Name", "VARCHAR"), ("Assay", "VARCHAR")]
    rows := [[Cell.str "s1", Cell.str "WGS"]] }

/-- C5 witness: the alias column gets no vocabulary, the Assay vocabulary
starts with All, and an All-valued entry adds no constraint. -/
theorem filter_options_all_sentinel_witness :
    lowerIn "Sample_Name" sampleAliases = true ∧
    List.lookup "Sample_Name" ((QCDatabase.init.load_parquet tW5).filter_options) =
      Option.none ∧
    "Assay" ∈ (classifyCols tW5.cols).categorical ∧
    lowerIn "Assay" sampleAliases = false ∧
    (∃ vs, List.lookup "Assay" ((QCDatabase.init.load_parquet tW5).filter_options) =
      some ("All" :: vs)) ∧
    activeFilters [("Assay", "All")] = activeFilters [] :=
  ⟨by decide,
   (filter_options_all_sentinel QCDatabase.init tW5 "Sample_Name" "x" "All" []).1 (by decide),
   by decide, by decide,
   (filter_options_all_sentinel QCDatabase.init tW5 "Assay" "x" "All" []).2.1
     (by decide) (by decide),
   (filter_options_all_sentinel QCDatabase.init tW5 "Assay" "Assay" "All" []).2.2
     (Or.inr rfl)⟩

theorem find?_first_iff (l : List String) (p : String → Bool) (c : String) :
    l.find? p = some c ↔
      ∃ i : ℕ, i < l.length ∧ l.getD i "" = c ∧ p c = true ∧
        ∀ j : ℕ, j < i → p (l.getD j "") = false := by
  induction l with
  | nil => simp
  | cons a t ih =>
      by_cases hpa : p a = true
      · rw [List.find?_cons_of_pos _ hpa]
        constructor
        · intro hsome
          have hac : a = c := Option.some_inj.mp hsome
          subst hac
          exact ⟨0, Nat.succ_pos _, rfl, hpa, fun j hj => absurd hj (Nat.not_lt_zero j)⟩
        · rintro ⟨i, hi, hgd, hpc, hfirst⟩
          cases i with
          | zero =>
              simp only [List.getD_cons_zero] at hgd
              rw [hgd]
          | succ k =>
              have h0 := hfirst 0 (Nat.succ_pos k)
              simp only [List.getD_cons_zero] at h0
              rw [hpa] at h0
              exact absurd h0 (by simp)
      · have hpa' : p a = false := by
          cases hv : p a
          · rfl
          · exact absurd hv hpa
        rw [List.find?_cons_of_neg _ hpa, ih]
        constructor
        · rintro ⟨i, hi, hgd, hpc, hfirst⟩
          refine ⟨i + 1, by simpa using Nat.succ_lt_succ hi, by simpa using hgd, hpc, ?_⟩
          intro j hj
          cases j with
          | zero => simpa using hpa'
          | succ k =>
              have hk := hfirst k (by omega)
              simpa using hk
        · rintro ⟨i, hi, hgd, hpc, hfirst⟩
          cases i with
          | zero =>
              simp only [List.getD_cons_zero] at hgd
              subst hgd
              exact absurd hpc hpa
          | succ k =>
              simp only [List.length_cons] at hi
              simp only [List.getD_cons_succ] at hgd
              refine ⟨k, by omega, hgd, hpc, ?_⟩
              intro j hj
              have hk := hfirst (j + 1) (by omega)
              simpa using hk

theorem nsNameColOk_detect (ns : Table) :
    nsNameColOk ns (detect_sample_name_col ns) = true := by
  cases hd : detect_sample_name_col ns with
  | none => rfl
  | some nc =>
      simp only [nsNameColOk]
      exact Table.hasCol_iff.mpr (List.mem_of_find?_eq_some hd)

theorem statForCol_new_points (db : QCDatabase) (fs : List (String × String))
    (col : String) :
    (statForCol db fs col).new_points =
      if db.new_samples_loaded then nsPointsFor db fs col else [] := by
  cases hmin : minAgg (numVals (refColCells db.qc_data fs col)) <;>
    simp [statForCol, hmin]

/-- C9 (amended): the identifier column the statistics operation labels
new-sample points with is the FIRST column of the new-samples table, of
any kind (not only categorical), whose name matches the identifier alias
set case-insensitively; when no column matches, every new point carries
only the value, with no label. -/
theorem stats_new_point_labels (db : QCDatabase) (fs : List (String × String))
    (hl : db.loaded = true) (hns : db.new_samples_loaded = true)
    (hw : whereOk db.qc_data fs = true) (hwns : whereOk db.new_samples fs = true) :
    (∀ nc : String, detect_sample_name_col db.new_samples = some nc ↔
      ∃ i : ℕ, i < db.new_samples.names.length ∧
        db.new_samples.names.getD i "" = nc ∧ lowerIn nc sampleAliases = true ∧
        ∀ j : ℕ, j < i →
          lowerIn (db.new_samples.names.getD j "") sampleAliases = false) ∧
    (detect_sample_name_col db.new_samples = Option.none ↔
      ∀ n ∈ db.new_samples.names, lowerIn n sampleAliases = false) ∧
    (∃ out, db.get_stats fs = Except.ok out ∧
      ∀ col rec, (col, rec) ∈ out → db.new_samples.hasCol col = true →
        rec.new_points.map (fun p => p.name) =
          (nsSelectedRowsFiltered db.new_samples fs col).map (fun r =>
            match detect_sample_name_col db.new_samples with
            | some nc => some (cellStr (db.new_samples.getCell r nc))
            | Option.none => Option.none)) := by
  refine ⟨?_, ?_, ?_⟩
  · intro nc
    exact find?_first_iff db.new_samples.names (fun n => lowerIn n sampleAliases) nc
  · rw [show detect_sample_name_col db.new_samples =
        db.new_samples.names.find? (fun n => lowerIn n sampleAliases) from rfl,
      List.find?_eq_none]
    constructor
    · intro h n hn
      have hb := h n hn
      cases hv : lowerIn n sampleAliases
      · rfl
      · exact absurd hv hb
    · intro h n hn
      simp [h n hn]
  · refine ⟨db.columns.numerical.map (fun col => (col, statForCol db fs col)), ?_, ?_⟩
    · simp only [QCDatabase.get_stats, hl, if_true]
      exact mapM_ok_of_forall _ _ _ (fun col hcol => by rw [if_pos hw])
    · intro col rec hmem hnscol
      obtain ⟨x, hx, heq⟩ := List.mem_map.mp hmem
      simp only [Prod.mk.injEq] at heq
      obtain ⟨rfl, rfl⟩ := heq
      have hcond : (whereOk db.new_samples fs && db.new_samples.hasCol x &&
          nsNameColOk db.new_samples (detect_sample_name_col db.new_samples)) = true := by
        rw [hwns, hnscol, nsNameColOk_detect]
        rfl
      have hnp : (statForCol db fs x).new_points =
          (nsSelectedRowsFiltered db.new_samples fs x).map
            (mkNsPoint db.new_samples (detect_sample_name_col db.new_samples) x) := by
        rw [statForCol_new_points, if_pos hns]
        simp only [nsPointsFor]
        rw [if_pos hcond]
      rw [hnp, List.map_map]
      apply List.map_congr_left
      intro r hr
      cases hd : detect_sample_name_col db.new_samples with
      | none => rfl
      | some nc => rfl

def tX9r : Table := { cols := [("Yield", "DOUBLE")], rows := [[Cell.num (PyFloat.fin 3)]] }

def tX9n : Table :=
  { cols := [("sample", "DOUBLE"), ("sample_name", "VARCHAR"), ("Yield", "DOUBLE")]
    rows := [[Cell.num (PyFloat.fin 7), Cell.str "S1", Cell.num (PyFloat.fin 3)]] }

def dbX9 : QCDatabase := (QCDatabase.init.load_parquet tX9r).load_new_samples tX9n

/-- C9 witness for the amended theorem at a concrete state. -/
theorem stats_new_point_labels_witness :
    dbX9.loaded = true ∧ dbX9.new_samples_loaded = true ∧
    whereOk dbX9.qc_data [] = true ∧ whereOk dbX9.new_samples [] = true ∧
    ((∀ nc : String, detect_sample_name_col dbX9.new_samples = some nc ↔
      ∃ i : ℕ, i < dbX9.new_samples.names.length ∧
        dbX9.new_samples.names.getD i "" = nc ∧ lowerIn nc sampleAliases = true ∧
        ∀ j : ℕ, j < i →
          lowerIn (dbX9.new_samples.names.getD j "") sampleAliases = false) ∧
    (detect_sample_name_col dbX9.new_samples = Option.none ↔
      ∀ n ∈ dbX9.new_samples.names, lowerIn n sampleAliases = false) ∧
    (∃ out, dbX9.get_stats [] = Except.ok out ∧
      ∀ col rec, (col, rec) ∈ out → dbX9.new_samples.hasCol col = true →
        rec.new_points.map (fun p => p.name) =
          (nsSelectedRowsFiltered dbX9.new_samples [] col).map (fun r =>
            match detect_sample_name_col dbX9.new_samples with
            | some nc => some (cellStr (dbX9.new_samples.getCell r nc))
            | Option.none => Option.none))) :=
  ⟨rfl, rfl, rfl, rfl, stats_new_point_labels dbX9 [] rfl rfl rfl rfl⟩

/-- Modelled from the claim under test (C9 as stated): the labeling column
as the claim describes it — the first CATEGORICAL column of the
new-samples table whose name matches the identifier alias set. -/
def firstCatAliasCol (t : Table) : Option String :=
  ((t.cols.filter (fun p => isCategoricalDtype p.2)).map Prod.fst).find?
    (fun n => lowerIn n sampleAliases)

/-- C9 counterexample to the claim as stated: new_samples has a numerical
column named sample before the categorical column sample_name; the
produced label is the stringified numeric sample value ("7"), not the
value of the first categorical alias column ("S1"), so the labeling
column is not the first CATEGORICAL alias match. -/
theorem stats_new_point_labels_counterexample :
    dbX9.get_stats [] = Except.ok [("Yield",
      { min := some 3, q1 := some 3, median := some 3, q3 := some 3, max := some 3,
        points := [some 3],
        new_points := [{ name := some "7", value := some 3 }] })] ∧
    firstCatAliasCol dbX9.new_samples = some "sample_name" ∧
    (nsSelectedRowsFiltered dbX9.new_samples [] "Yield").map
      (fun r => some (cellStr (dbX9.new_samples.getCell r "sample_name"))) =
      [some "S1"] ∧
    (some "7" : Option String) ≠ some "S1" :=
  ⟨by with_unfolding_all rfl, by decide, by decide, by decide⟩

end QCTracker
